import Mathlib

/-!
Verification of the BRCA_devyser annotation pipeline.

Shallow embedding of the two source files:
- `annotate_genebe.py` : variant-key normalization, the persistent annotation
  cache (load / lookup / append-with-dedup / save) and the per-file
  reconciliation merge;
- `brca_vcf_parser.py` : the cross-file occurrence counter and the rendered
  occurrence fraction.

Tables (pandas DataFrames) are modelled as Lean lists of records; nullable
cells are `Option` values; raw spreadsheet cells whose dtype is unknown are a
sum of string and integer.  Each definition carries a comment pointing at the
source lines it translates.
-/

namespace BRCA

/-- Raw spreadsheet or service cell value of unspecified dtype: the code only
distinguishes text from integers (the observed dtype drift). -/
inductive Raw where
  | str (s : String)
  | int (n : Int)
deriving DecidableEq

/-- Python `str()` / pandas `astype(str)` on a raw cell. -/
def Raw.toStr : Raw → String
  | .str s => s
  | .int n => toString n

/-- Left-to-right, non-overlapping, case-insensitive removal of every
occurrence of the three characters "chr"; this is what
`Series.str.replace("chr", "", case=False)` does (pandas compiles the escaped
literal with `re.IGNORECASE` and substitutes all matches). -/
def stripChrList : List Char → List Char
  | c1 :: c2 :: c3 :: rest =>
      if c1.toLower = 'c' ∧ c2.toLower = 'h' ∧ c3.toLower = 'r' then
        stripChrList rest
      else
        c1 :: stripChrList (c2 :: c3 :: rest)
  | l => l

/-- String wrapper for `stripChrList` (annotate_genebe.py line 16, 43, 105). -/
def stripChr (s : String) : String := ⟨stripChrList s.data⟩

/-- Modelled from the spec: removal of only a *leading* build prefix,
case-insensitively ("chromosome has any leading build prefix removed
case-insensitively", spec section 4.1).  Declared solely to compare the
spec's wording with the source's `stripChr`; it is not part of the code. -/
def stripChrLeading (s : String) : String :=
  match s.data with
  | c1 :: c2 :: c3 :: rest =>
      if c1.toLower = 'c' ∧ c2.toLower = 'h' ∧ c3.toLower = 'r' then ⟨rest⟩ else s
  | _ => s

/-- The four-field variant identity (columns chr, pos, ref, alt). -/
structure VKey where
  chr : String
  pos : String
  ref : String
  alt : String
deriving DecidableEq

/-- One row of a parsed source Excel file: the four raw key cells, the AF
column produced by the parser (numeric or NaN), and the remaining payload
columns. -/
structure SourceRow where
  chrom : Raw
  pos : Raw
  ref : Raw
  alt : Raw
  af : Option Rat
  payload : List (Option String)
deriving DecidableEq

/-- annotate_genebe.py lines 13-22 (`_build_variant_df`), per row: every field
is cast to string and the chromosome goes through the "chr" removal. -/
def buildVariantKey (r : SourceRow) : VKey :=
  { chr := stripChr r.chrom.toStr
    pos := r.pos.toStr
    ref := r.ref.toStr
    alt := r.alt.toStr }

/-- annotate_genebe.py `_build_variant_df` applied to a whole file. -/
def build_variant_df (df : List SourceRow) : List VKey :=
  df.map buildVariantKey

/-- One cached/fetched annotation row: its key, the annotation attribute
columns (uniform schema per table, nullable cells), and the FIRST_ANNOTATED
column. -/
structure AnnRecord where
  key : VKey
  attrs : List (Option String)
  firstAnnotated : Option String
deriving DecidableEq

/-- One row of the persisted annotation workbook before the load-time
renormalization: key cells still have whatever dtype Excel stored. -/
structure PersistedRecord where
  chrom : Raw
  pos : Raw
  ref : Raw
  alt : Raw
  attrs : List (Option String)
  firstAnnotated : Option String
deriving DecidableEq

/-- annotate_genebe.py lines 28-45 (`_load_local_annotations`): a missing
workbook yields the empty table; otherwise every merge column is cast to
string and the chromosome's "chr" text is removed, exactly as in
`_build_variant_df`. -/
def loadLocalAnnotations (file : Option (List PersistedRecord)) : List AnnRecord :=
  match file with
  | none => []
  | some recs =>
      recs.map fun rr =>
        ⟨⟨stripChr rr.chrom.toStr, rr.pos.toStr, rr.ref.toStr, rr.alt.toStr⟩,
          rr.attrs, rr.firstAnnotated⟩

/-- First-occurrence deduplication keyed by `f`, accumulator = keys already
seen; this is pandas `drop_duplicates(subset=..., keep="first")`. -/
def dedupByAux (f : α → β) [DecidableEq β] (seen : List β) : List α → List α
  | [] => []
  | x :: xs =>
      if f x ∈ seen then dedupByAux f seen xs
      else x :: dedupByAux f (f x :: seen) xs

/-- pandas `drop_duplicates(keep="first")` keyed by `f`. -/
def dedupBy (f : α → β) [DecidableEq β] (l : List α) : List α :=
  dedupByAux f [] l

/-- annotate_genebe.py line 106: the fresh service response gets the
FIRST_ANNOTATED column set to today's date on every row. -/
def stampFresh (today : String) (new_ann : List AnnRecord) : List AnnRecord :=
  new_ann.map fun r => ⟨r.key, r.attrs, some today⟩

/-- annotate_genebe.py lines 107-109: concatenate cache and fresh rows,
deduplicate by the four merge columns keeping the first row, and persist. -/
def appendAndSave (cache new_ann : List AnnRecord) : List AnnRecord :=
  dedupBy AnnRecord.key (cache ++ new_ann)

/-- The all-null annotation row a pandas left merge produces for an unmatched
left key (`w` = number of annotation attribute columns of the right table). -/
def nullRecord (k : VKey) (w : Nat) : AnnRecord :=
  ⟨k, List.replicate w none, none⟩

/-- Rows a pandas left merge emits for one left key: every matching right row,
or a single all-null row when there is no match. -/
def joinRows (tbl : List AnnRecord) (w : Nat) (k : VKey) : List AnnRecord :=
  if (tbl.filter fun s => s.key = k) = [] then [nullRecord k w]
  else tbl.filter fun s => s.key = k

/-- pandas `left.merge(tbl, on=merge_cols, how="left")` where the left table
is a bare key list (annotate_genebe.py lines 83, 124, 131). -/
def leftJoinKeys (keys : List VKey) (tbl : List AnnRecord) (w : Nat) : List AnnRecord :=
  keys.flatMap (joinRows tbl w)

/-- Row predicate of annotate_genebe.py line 84, `isna().any(axis=1)`: the key
columns are total strings, so only annotation columns can be null. -/
def rowAnyNull (r : AnnRecord) : Bool :=
  r.attrs.any (fun a => a.isNone) || r.firstAnnotated.isNone

/-- Row predicate of annotate_genebe.py line 85, `dropna(..., how="all")`
dropping rows whose non-key columns are all null. -/
def rowAllNull (r : AnnRecord) : Bool :=
  r.attrs.all (fun a => a.isNone) && r.firstAnnotated.isNone

/-- annotate_genebe.py line 84: the keys sent to the annotation service are
those whose merged row has at least one null cell. -/
def toAnnotate (uniqueVars : List VKey) (localAnn : List AnnRecord) (w : Nat) : List VKey :=
  ((leftJoinKeys uniqueVars localAnn w).filter rowAnyNull).map AnnRecord.key

/-- annotate_genebe.py line 85: the merged rows retained as cache hits are
those with at least one non-null annotation cell. -/
def hitsRetained (uniqueVars : List VKey) (localAnn : List AnnRecord) (w : Nat) : List AnnRecord :=
  (leftJoinKeys uniqueVars localAnn w).filter fun r => !(rowAllNull r)

/-- annotate_genebe.py lines 113-122 for one retained hit row: left-merge it
with the fresh table and fill each previously-null cell from the matching
fresh row (`fillna` column by column); no match leaves the row unchanged. -/
def fillRow (fresh : List AnnRecord) (h : AnnRecord) : List AnnRecord :=
  if (fresh.filter fun s => s.key = h.key) = [] then [h]
  else
    (fresh.filter fun s => s.key = h.key).map fun f =>
      ⟨h.key,
        (h.attrs.zip f.attrs).map (fun p => p.1.orElse fun _ => p.2),
        h.firstAnnotated.orElse fun _ => f.firstAnnotated⟩

/-- annotate_genebe.py line 113-122 over the whole retained-hit table. -/
def combineFresh (hits fresh : List AnnRecord) : List AnnRecord :=
  hits.flatMap (fillRow fresh)

/-- annotate_genebe.py lines 110-122: the annotation table used for the
per-file joins is the fresh table alone when no hit row was retained, else
the retained hits with null cells filled from the fresh rows. -/
def combinedAnnotations (hits fresh : List AnnRecord) : List AnnRecord :=
  if hits = [] then fresh else combineFresh hits fresh

/-- annotate_genebe.py line 74: concatenate every file's key table and drop
duplicate rows keeping the first (the four key columns are the whole row). -/
def unique_vars (files : List (List SourceRow)) : List VKey :=
  dedupBy (fun k => k) (files.map build_variant_df).flatten

/-- annotate_genebe.py lines 79-84: with an empty cache the whole unique set
is sent to the service, otherwise the any-null rows of the merged table. -/
def to_annotate_run (files : List (List SourceRow)) (localAnn : List AnnRecord) (w : Nat) :
    List VKey :=
  if localAnn.isEmpty then unique_vars files
  else toAnnotate (unique_vars files) localAnn w

/-- annotate_genebe.py line 87: `gnb.annotate` runs iff `to_annotate` is
non-empty. -/
def serviceInvoked (files : List (List SourceRow)) (localAnn : List AnnRecord) (w : Nat) :
    Bool :=
  !(to_annotate_run files localAnn w).isEmpty

/-- pandas `concat([a, b], axis=1)` on two range-indexed tables: rows are
aligned positionally and the shorter side is padded with nulls. -/
def concatAxis1 : List α → List β → List (Option α × Option β)
  | [], [] => []
  | a :: as, [] => (some a, none) :: concatAxis1 as []
  | [], b :: bs => (none, some b) :: concatAxis1 [] bs
  | a :: as, b :: bs => (some a, some b) :: concatAxis1 as bs

/-- The AF sort key of one output row (the AF column lives on the source
side of the axis-1 concatenation; a padding row has no AF). -/
def rowAF (p : Option SourceRow × Option AnnRecord) : Option Rat :=
  p.1.bind SourceRow.af

/-- Strict order on AF cells for the descending, nulls-last sort: `a` must
come strictly after `b`. -/
def afAfter (a b : Option Rat) : Bool :=
  match a, b with
  | none, some _ => true
  | some x, some y => x < y
  | _, _ => false

/-- Stable insertion into a list already in descending AF order. -/
def insertAF (r : Option SourceRow × Option AnnRecord) :
    List (Option SourceRow × Option AnnRecord) → List (Option SourceRow × Option AnnRecord)
  | [] => [r]
  | x :: xs => if afAfter (rowAF x) (rowAF r) then r :: x :: xs else x :: insertAF r xs

/-- annotate_genebe.py line 136, `sort_values(by="AF", ascending=False)` with
the default `na_position="last"`, modelled as a stable sort.  The library's
default sort kind gives no stability promise; only order-insensitive facts
(length, membership, multiset) are proved about this definition. -/
def sortByAFDesc (l : List (Option SourceRow × Option AnnRecord)) :
    List (Option SourceRow × Option AnnRecord) :=
  l.foldr insertAF []

/-- annotate_genebe.py lines 129-136 for one source file: left-join its key
table against the combined annotation table, drop the key columns of the
annotation side (kept here inside the record), concatenate positionally with
the original table, and sort by AF. -/
def outputTable (df : List SourceRow) (combined : List AnnRecord) (w : Nat) :
    List (Option SourceRow × Option AnnRecord) :=
  sortByAFDesc (concatAxis1 df (leftJoinKeys (build_variant_df df) combined w))

/-- One data row of a VCF as the counting pass sees it (read with dtype=str,
"#CHROM" renamed to "CHROM"). -/
structure VcfRow where
  chrom : String
  pos : String
  ref : String
  alt : String
deriving DecidableEq

/-- brca_vcf_parser.py lines 74-77 and 138-141: the "chr-pos-ref-alt"
identifier (both passes build it with the same expression). -/
def rowVariantId (r : VcfRow) : String :=
  r.chrom ++ "-" ++ r.pos ++ "-" ++ r.ref ++ "-" ++ r.alt

/-- Outcome of parsing one VCF: the data rows, plus whether the INFO column is
present (`process_vcf_file` additionally requires INFO; the counting pass does
not).  A file that cannot be opened, has no "#CHROM" line, fails `read_csv`,
or lacks one of CHROM/POS/REF/ALT is `none` for both passes, since both run
the identical open/locate/read/require steps. -/
structure ParsedVcf where
  rows : List VcfRow
  hasInfo : Bool
deriving DecidableEq

/-- brca_vcf_parser.py line 79: one dictionary increment per identifier. -/
def bumpCounts (c : String → Nat) (ids : List String) : String → Nat :=
  ids.foldl (fun c v => Function.update c v (c v + 1)) c

/-- brca_vcf_parser.py lines 52-79, one file of `build_variant_counts`:
skipped files leave the counts alone; otherwise each identifier of the file's
`set(variant_ids)` is incremented once. -/
def countStep (c : String → Nat) : Option ParsedVcf → String → Nat
  | none => c
  | some p => bumpCounts c (p.rows.map rowVariantId).dedup

/-- brca_vcf_parser.py lines 48-80 (`build_variant_counts`); the missing-key
default 0 of `counts.get(vid, 0)` is the initial total function. -/
def build_variant_counts (files : List (Option ParsedVcf)) : String → Nat :=
  files.foldl countStep (fun _ => 0)

/-- brca_vcf_parser.py lines 143-145: the rendered VCF_COUNT cell. -/
def renderCount (counts : String → Nat) (total : Nat) (vid : String) : String :=
  toString (counts vid) ++ "/" ++ toString total

/- Concrete inputs used by counterexamples and witnesses. -/

/-- Concrete key for the C2 counterexample. -/
def kC2 : VKey := ⟨"17", "41244000", "G", "A"⟩

/-- Cached record for `kC2` with the frequency attribute populated and the
gene attribute null. -/
def recC2 : AnnRecord := ⟨kC2, [some "0.63", none], some "2024-05-01"⟩

/-- Concrete fully-annotated key for the C4 failing input. -/
def kC4a : VKey := ⟨"13", "32900000", "A", "G"⟩

/-- Concrete never-cached key for the C4 failing input. -/
def kC4b : VKey := ⟨"13", "32910000", "C", "T"⟩

/-- Cache for the C4 failing input: only `kC4a`, fully populated. -/
def cacheC4 : List AnnRecord := [⟨kC4a, [some "BRCA2"], some "2024-01-02"⟩]

/-- Source batch for the C4 failing input: one file holding both keys. -/
def filesC4 : List (List SourceRow) :=
  [[⟨Raw.str "13", Raw.int 32900000, Raw.str "A", Raw.str "G", none, []⟩,
    ⟨Raw.str "13", Raw.int 32910000, Raw.str "C", Raw.str "T", none, []⟩]]

/-- Fresh service response (already stamped) for the C4 failing input. -/
def freshC4 : List AnnRecord := [⟨kC4b, [some "BRCA2"], some "2025-06-01"⟩]

/-- Source batch for the C5 counterexample: one file, one variant. -/
def filesC5 : List (List SourceRow) :=
  [[⟨Raw.str "chr5", Raw.int 1234, Raw.str "T", Raw.str "C", none, []⟩]]

/-- Cache for the C5 counterexample: the lone variant has a partially
populated record, hence is a hit in the spec's sense. -/
def cacheC5 : List AnnRecord := [⟨⟨"5", "1234", "T", "C"⟩, [none, some "TERT"], some "2024-03-03"⟩]

/-- Chromosome cell for the C7 counterexample. -/
def rowC7 : SourceRow := ⟨Raw.str "Xchr1", Raw.int 5, Raw.str "A", Raw.str "G", none, []⟩

/-- Cache for the C1 witness. -/
def cacheW1 : List AnnRecord := [⟨⟨"1", "10", "A", "C"⟩, [some "x"], some "2024-01-01"⟩]

/-- Refetched record (same key, different payload) for the C1 witness. -/
def freshW1 : List AnnRecord := [⟨⟨"1", "10", "A", "C"⟩, [some "y"], some "2025-02-02"⟩]

/-- Source table for the C3 witness: two rows, one of which will match the
annotation table and one of which will not. -/
def dfW3 : List SourceRow :=
  [⟨Raw.str "chr1", Raw.int 100, Raw.str "A", Raw.str "G", some 1, [some "p"]⟩,
   ⟨Raw.str "2", Raw.int 200, Raw.str "C", Raw.str "T", none, [none]⟩]

/-- Annotation table for the C3 witness. -/
def combW3 : List AnnRecord := [⟨⟨"1", "100", "A", "G"⟩, [some "BRCA1"], some "2024-01-01"⟩]

/-- Source batch for the C5 witness: one file, one fully-annotated variant. -/
def filesW5 : List (List SourceRow) :=
  [[⟨Raw.str "chr9", Raw.int 55, Raw.str "G", Raw.str "T", none, []⟩]]

/-- Cache for the C5 witness: the lone variant with no null attribute. -/
def cacheW5 : List AnnRecord := [⟨⟨"9", "55", "G", "T"⟩, [some "a", some "b"], some "2024-04-04"⟩]

/-- Shared variant row for the C8 concrete batch. -/
def rowC8 : VcfRow := ⟨"17", "41245466", "G", "A"⟩

/-- Identifier of the shared C8 variant. -/
def vC8 : String := rowVariantId rowC8

/-- Three-file batch for the C8 concrete scenario: the variant appears twice
in file 1, file 2 fails to parse, and file 3 holds the variant once. -/
def filesC8 : List (Option ParsedVcf) :=
  [some ⟨[rowC8, rowC8, ⟨"17", "41245471", "C", "T"⟩], true⟩,
   none,
   some ⟨[rowC8], true⟩]

/-- Variant row for the C10 witness. -/
def rowW10 : VcfRow := ⟨"13", "32890000", "G", "C"⟩

/-- Successfully processed file for the C10 witness. -/
def pW10 : ParsedVcf := ⟨[rowW10], true⟩

/-- Batch for the C10 witness: one failed file, one processed file. -/
def filesW10 : List (Option ParsedVcf) := [none, some pW10]

/-! ### Helper lemmas -/

/-- Elements of the deduplicated list come from the input list. -/
theorem mem_of_mem_dedupByAux {α β : Type} [DecidableEq β] {f : α → β} {l : List α} {y : α} :
    ∀ {seen : List β}, y ∈ dedupByAux f seen l → y ∈ l := by
  induction l with
  | nil => intro seen h; simp [dedupByAux] at h
  | cons x xs ih =>
      intro seen h
      by_cases hx : f x ∈ seen
      · simp only [dedupByAux, if_pos hx] at h
        exact List.mem_cons_of_mem _ (ih h)
      · simp only [dedupByAux, if_neg hx, List.mem_cons] at h
        rcases h with rfl | h
        · exact List.mem_cons_self _ _
        · exact List.mem_cons_of_mem _ (ih h)

/-- After deduplication the keys are pairwise distinct and avoid the
accumulator. -/
theorem nodup_map_dedupByAux {α β : Type} [DecidableEq β] (f : α → β) (l : List α) :
    ∀ seen : List β,
      ((dedupByAux f seen l).map f).Nodup ∧ ∀ b ∈ (dedupByAux f seen l).map f, b ∉ seen := by
  induction l with
  | nil => intro seen; simp [dedupByAux]
  | cons x xs ih =>
      intro seen
      by_cases hx : f x ∈ seen
      · simpa only [dedupByAux, if_pos hx] using ih seen
      · obtain ⟨h1, h2⟩ := ih (f x :: seen)
        simp only [dedupByAux, if_neg hx, List.map_cons, List.nodup_cons]
        refine ⟨⟨fun hmem => (h2 _ hmem) (List.mem_cons_self _ _), h1⟩, ?_⟩
        intro b hb
        rcases List.mem_cons.mp hb with rfl | hb
        · exact hx
        · exact fun hbseen => (h2 b hb) (List.mem_cons_of_mem _ hbseen)

/-- Keys of `dedupBy` are pairwise distinct. -/
theorem dedupBy_nodup_map {α β : Type} [DecidableEq β] (f : α → β) (l : List α) :
    ((dedupBy f l).map f).Nodup :=
  (nodup_map_dedupByAux f l []).1

/-- Deduplication keeping the first occurrence preserves the first record
found for any key not in the accumulator. -/
theorem find?_dedupByAux {α β : Type} [DecidableEq β] (f : α → β) (k : β) (l : List α) :
    ∀ seen : List β, k ∉ seen →
      (dedupByAux f seen l).find? (fun y => f y = k) = l.find? (fun y => f y = k) := by
  induction l with
  | nil => intro seen _; rfl
  | cons x xs ih =>
      intro seen hk
      by_cases hxk : f x = k
      · have hx : f x ∉ seen := fun h => hk (hxk ▸ h)
        simp only [dedupByAux, if_neg hx]
        rw [List.find?_cons_of_pos _ (by simp [hxk]), List.find?_cons_of_pos _ (by simp [hxk])]
      · by_cases hx : f x ∈ seen
        · simp only [dedupByAux, if_pos hx]
          rw [List.find?_cons_of_neg _ (by simp [hxk])]
          exact ih seen hk
        · simp only [dedupByAux, if_neg hx]
          rw [List.find?_cons_of_neg _ (by simp [hxk]), List.find?_cons_of_neg _ (by simp [hxk])]
          refine ih (f x :: seen) ?_
          intro hmem
          rcases List.mem_cons.mp hmem with h | h
          · exact hxk h.symm
          · exact hk h

/-- Keep-first deduplication preserves the first record per key. -/
theorem dedupBy_find? {α β : Type} [DecidableEq β] (f : α → β) (k : β) (l : List α) :
    (dedupBy f l).find? (fun y => f y = k) = l.find? (fun y => f y = k) :=
  find?_dedupByAux f k l [] (by simp)

/-- Membership is unchanged by identity-keyed keep-first deduplication. -/
theorem mem_dedupByAux_id {β : Type} [DecidableEq β] {k : β} (l : List β) :
    ∀ seen : List β, k ∉ seen →
      (k ∈ dedupByAux (fun x => x) seen l ↔ k ∈ l) := by
  induction l with
  | nil => intro seen _; simp [dedupByAux]
  | cons x xs ih =>
      intro seen hk
      by_cases hx : x ∈ seen
      · have hkx : k ≠ x := fun h => hk (h ▸ hx)
        simp only [dedupByAux, if_pos hx, List.mem_cons]
        rw [ih seen hk]
        simp [hkx]
      · by_cases hkx : k = x
        · simp [dedupByAux, hx, List.mem_cons, hkx]
        · have hk2 : k ∉ x :: seen := by
            intro hmem
            rcases List.mem_cons.mp hmem with h | h
            · exact hkx h
            · exact hk h
          simp only [dedupByAux, if_neg hx, List.mem_cons]
          rw [ih (x :: seen) hk2]

/-- Membership is unchanged by `dedupBy` on keys themselves. -/
theorem mem_dedupBy_id {β : Type} [DecidableEq β] {k : β} (l : List β) :
    k ∈ dedupBy (fun x => x) l ↔ k ∈ l :=
  mem_dedupByAux_id l [] (by simp)

/-- Rows a left join emits for one key: the all-null row exactly when the
right table has no match, else the matching right rows. -/
theorem mem_joinRows {tbl : List AnnRecord} {w : Nat} {k : VKey} {r : AnnRecord} :
    r ∈ joinRows tbl w k ↔
      ((tbl.filter fun s => s.key = k) = [] ∧ r = nullRecord k w)
      ∨ (r ∈ tbl ∧ r.key = k) := by
  unfold joinRows
  by_cases h : (tbl.filter fun s => s.key = k) = []
  · rw [if_pos h]
    constructor
    · intro hr
      exact Or.inl ⟨h, List.mem_singleton.mp hr⟩
    · rintro (⟨_, rfl⟩ | ⟨hmem, hkey⟩)
      · exact List.mem_singleton.mpr rfl
      · exfalso
        have : r ∈ tbl.filter fun s => s.key = k := List.mem_filter.mpr ⟨hmem, by simp [hkey]⟩
        rw [h] at this
        simp at this
  · rw [if_neg h]
    constructor
    · intro hr
      have := List.mem_filter.mp hr
      exact Or.inr ⟨this.1, by simpa using this.2⟩
    · rintro (⟨hnil, _⟩ | ⟨hmem, hkey⟩)
      · exact absurd hnil h
      · exact List.mem_filter.mpr ⟨hmem, by simp [hkey]⟩

/-- Under pairwise-distinct right keys, the per-key match list has at most one
row. -/
theorem filter_key_length_le_one {l : List AnnRecord}
    (hnd : (l.map AnnRecord.key).Nodup) (k : VKey) :
    (l.filter fun s => s.key = k).length ≤ 1 := by
  induction l with
  | nil => simp
  | cons r rs ih =>
      simp only [List.map_cons, List.nodup_cons] at hnd
      by_cases hr : r.key = k
      · rw [List.filter_cons_of_pos (by simp [hr])]
        have hnil : (rs.filter fun s => s.key = k) = [] := by
          rw [List.filter_eq_nil_iff]
          intro s hs hkey
          have : s.key = k := by simpa using hkey
          exact hnd.1 (List.mem_map.mpr ⟨s, hs, by rw [this, hr]⟩)
        simp [hnil]
      · rw [List.filter_cons_of_neg (by simp [hr])]
        exact ih hnd.2

/-- Under pairwise-distinct right keys, a left join emits exactly one row per
left key. -/
theorem joinRows_length_of_nodup {tbl : List AnnRecord}
    (hnd : (tbl.map AnnRecord.key).Nodup) (w : Nat) (k : VKey) :
    (joinRows tbl w k).length = 1 := by
  unfold joinRows
  by_cases h : (tbl.filter fun s => s.key = k) = []
  · simp [h]
  · rw [if_neg h]
    have hle := filter_key_length_le_one hnd k
    have hpos : 0 < (tbl.filter fun s => s.key = k).length := List.length_pos.mpr h
    omega

/-- Under pairwise-distinct right keys, the left join preserves the row count
of the left key list. -/
theorem leftJoinKeys_length_of_nodup {tbl : List AnnRecord}
    (hnd : (tbl.map AnnRecord.key).Nodup) (keys : List VKey) (w : Nat) :
    (leftJoinKeys keys tbl w).length = keys.length := by
  induction keys with
  | nil => rfl
  | cons k ks ih =>
      show ((joinRows tbl w k) ++ ks.flatMap (joinRows tbl w)).length = ks.length + 1
      rw [List.length_append, joinRows_length_of_nodup hnd w k]
      have h2 : (ks.flatMap (joinRows tbl w)).length = ks.length := ih
      omega

/-- The axis-1 concatenation has as many rows as its longer side. -/
theorem concatAxis1_length {α β : Type} : ∀ (as : List α) (bs : List β),
    (concatAxis1 as bs).length = max as.length bs.length
  | [], [] => by simp [concatAxis1]
  | a :: as, [] => by simp [concatAxis1, concatAxis1_length as []]
  | [], b :: bs => by simp [concatAxis1, concatAxis1_length [] bs]
  | a :: as, b :: bs => by
      simp [concatAxis1, concatAxis1_length as bs, Nat.succ_max_succ]

/-- On equally long sides the left column of the axis-1 concatenation is the
left table. -/
theorem concatAxis1_map_fst_of_len {α β : Type} : ∀ (as : List α) (bs : List β),
    as.length = bs.length → (concatAxis1 as bs).map Prod.fst = as.map some
  | [], [] => by intro h; simp [concatAxis1]
  | _ :: _, [] => by intro h; simp at h
  | [], _ :: _ => by intro h; simp at h
  | a :: as, b :: bs => by
      intro h
      have h' : as.length = bs.length := by
        simp only [List.length_cons] at h
        omega
      simp [concatAxis1, concatAxis1_map_fst_of_len as bs h']

/-- Inserting into the AF-sorted list is a permutation of consing. -/
theorem insertAF_perm (r : Option SourceRow × Option AnnRecord)
    (l : List (Option SourceRow × Option AnnRecord)) : (insertAF r l).Perm (r :: l) := by
  induction l with
  | nil => exact List.Perm.refl _
  | cons x xs ih =>
      by_cases h : afAfter (rowAF x) (rowAF r) = true
      · simp only [insertAF, if_pos h]
        exact List.Perm.refl _
      · simp only [insertAF, if_neg h]
        exact (ih.cons x).trans (List.Perm.swap r x xs)

/-- The AF sort permutes its input. -/
theorem sortByAFDesc_perm (l : List (Option SourceRow × Option AnnRecord)) :
    (sortByAFDesc l).Perm l := by
  induction l with
  | nil => exact List.Perm.refl _
  | cons x xs ih =>
      exact (insertAF_perm x (sortByAFDesc xs)).trans (ih.cons x)

/-- Counter increments never decrease any count. -/
theorem le_bumpCounts (ids : List String) : ∀ (c : String → Nat) (v : String),
    c v ≤ bumpCounts c ids v := by
  induction ids with
  | nil => intro c v; exact Nat.le_refl _
  | cons i tl ih =>
      intro c v
      refine Nat.le_trans ?_ (ih (Function.update c i (c i + 1)) v)
      by_cases h : v = i
      · subst h
        rw [Function.update_same]
        exact Nat.le_succ _
      · rw [Function.update_noteq h]

/-- Incrementing over a duplicate-free identifier set adds exactly one to the
members and nothing to the rest. -/
theorem bumpCounts_eq_of_nodup (ids : List String) : ∀ (c : String → Nat) (v : String),
    ids.Nodup → bumpCounts c ids v = c v + (if v ∈ ids then 1 else 0) := by
  induction ids with
  | nil => intro c v _; simp [bumpCounts]
  | cons i tl ih =>
      intro c v hnd
      rw [List.nodup_cons] at hnd
      have step : bumpCounts c (i :: tl) v
          = bumpCounts (Function.update c i (c i + 1)) tl v := rfl
      rw [step, ih _ v hnd.2]
      by_cases h : v = i
      · subst h
        rw [Function.update_same]
        simp [hnd.1]
      · rw [Function.update_noteq h]
        simp [List.mem_cons, h]

/-- Folding the counter over the batch never decreases any count. -/
theorem le_counts_foldl (files : List (Option ParsedVcf)) :
    ∀ (c : String → Nat) (v : String), c v ≤ files.foldl countStep c v := by
  induction files with
  | nil => intro c v; exact Nat.le_refl _
  | cons f fs ih =>
      intro c v
      refine Nat.le_trans ?_ (ih (countStep c f) v)
      cases f with
      | none => exact Nat.le_refl _
      | some p => exact le_bumpCounts _ c v

/-- The counter computes, for every identifier, the number of parsed files
whose row set contains it. -/
theorem counts_foldl_eq (files : List (Option ParsedVcf)) (v : String) :
    ∀ c : String → Nat,
      files.foldl countStep c v
        = c v + files.countP (fun f => match f with
            | none => false
            | some p => decide (v ∈ p.rows.map rowVariantId)) := by
  induction files with
  | nil => intro c; simp
  | cons f fs ih =>
      intro c
      rw [List.foldl_cons, ih, List.countP_cons]
      cases f with
      | none => simp [countStep]
      | some p =>
          have hbump := bumpCounts_eq_of_nodup ((p.rows.map rowVariantId).dedup) c v
            (List.nodup_dedup _)
          simp only [countStep, hbump, List.mem_dedup]
          by_cases hv : v ∈ p.rows.map rowVariantId
          · simp [hv]
            omega
          · simp [hv]

/-- A file whose row set contains the identifier pushes its count to at least
one, whatever the accumulator. -/
theorem one_le_counts_aux (p : ParsedVcf) (r : VcfRow) (hr : r ∈ p.rows) :
    ∀ (files : List (Option ParsedVcf)) (c : String → Nat), some p ∈ files →
      1 ≤ files.foldl countStep c (rowVariantId r) := by
  intro files
  induction files with
  | nil => intro c h; simp at h
  | cons f fs ih =>
      intro c hmem
      rw [List.foldl_cons]
      rcases List.mem_cons.mp hmem with heq | hmem'
      · refine Nat.le_trans ?_ (le_counts_foldl fs (countStep c f) (rowVariantId r))
        rw [← heq]
        have hv : rowVariantId r ∈ (p.rows.map rowVariantId).dedup :=
          List.mem_dedup.mpr (List.mem_map_of_mem _ hr)
        show 1 ≤ bumpCounts c ((p.rows.map rowVariantId).dedup) (rowVariantId r)
        rw [bumpCounts_eq_of_nodup _ c _ (List.nodup_dedup _), if_pos hv]
        omega
      · exact ih (countStep c f) hmem'

/-! ### Claim theorems -/

/-- Claim C1: for every key already present in the cache, concatenating fresh
records and deduplicating with keep-first retains the originally-cached record
for that key, and the saved table has pairwise-distinct keys. -/
theorem c1_keep_first_dedup (cache new_ann : List AnnRecord) (k : VKey)
    (hk : k ∈ cache.map AnnRecord.key) :
    (appendAndSave cache new_ann).find? (fun r => r.key = k)
        = cache.find? (fun r => r.key = k)
    ∧ ((appendAndSave cache new_ann).map AnnRecord.key).Nodup := by
  constructor
  · show (dedupBy AnnRecord.key (cache ++ new_ann)).find? (fun r => r.key = k)
        = cache.find? (fun r => r.key = k)
    rw [dedupBy_find? AnnRecord.key k (cache ++ new_ann), List.find?_append]
    have hsome : (cache.find? fun r => r.key = k).isSome := by
      rw [List.find?_isSome]
      obtain ⟨r, hr, hrk⟩ := List.mem_map.mp hk
      exact ⟨r, hr, by simp [hrk]⟩
    obtain ⟨b, hb⟩ := Option.isSome_iff_exists.mp hsome
    rw [hb]
    rfl
  · exact dedupBy_nodup_map _ _

/-- Witness for C1 at a concrete cache and a concrete refetched record. -/
theorem c1_keep_first_dedup_witness :
    (appendAndSave cacheW1 freshW1).find? (fun r => r.key = ⟨"1", "10", "A", "C"⟩)
        = cacheW1.find? (fun r => r.key = ⟨"1", "10", "A", "C"⟩)
    ∧ ((appendAndSave cacheW1 freshW1).map AnnRecord.key).Nodup :=
  c1_keep_first_dedup cacheW1 freshW1 ⟨"1", "10", "A", "C"⟩ (by decide)

/-- Claim C2 counterexample: a cached record with the frequency attribute
populated and the gene attribute null is nevertheless sent to the annotation
service (the miss test fires on any null, not only when all attributes are
absent), refuting the claim that such a key is not re-fetched. -/
theorem c2_counterexample :
    toAnnotate [kC2] [recC2] 2 = [kC2] ∧ rowAllNull recC2 = false := by decide

/-- Claim C2 as amended: a requested key with exactly one cached record is
sent to the annotation service exactly when some non-key cell of that record
is null, and it is retained as a hit exactly when not all non-key cells are
null — so a partially populated record is both kept as a hit and re-fetched. -/
theorem c2_amended_miss_classification (uv : List VKey) (la : List AnnRecord) (w : Nat)
    (k : VKey) (r : AnnRecord) (hk : k ∈ uv)
    (hr : (la.filter fun s => s.key = k) = [r]) :
    (k ∈ toAnnotate uv la w ↔ rowAnyNull r = true)
    ∧ (r ∈ hitsRetained uv la w ↔ rowAllNull r = false) := by
  have hrfilter : r ∈ la.filter fun s => s.key = k := by
    rw [hr]
    exact List.mem_singleton.mpr rfl
  have hrk : r.key = k := by
    have := (List.mem_filter.mp hrfilter).2
    simpa using this
  have hrla : r ∈ la := (List.mem_filter.mp hrfilter).1
  have hrmem : r ∈ leftJoinKeys uv la w := by
    refine List.mem_flatMap.mpr ⟨k, hk, ?_⟩
    exact mem_joinRows.mpr (Or.inr ⟨hrla, hrk⟩)
  constructor
  · constructor
    · intro hmem
      obtain ⟨s, hs, hsk⟩ := List.mem_map.mp hmem
      obtain ⟨hsjoin, hsany⟩ := List.mem_filter.mp hs
      obtain ⟨k', hk', hjr⟩ := List.mem_flatMap.mp hsjoin
      rcases mem_joinRows.mp hjr with ⟨hnil, rfl⟩ | ⟨hstbl, hsk'⟩
      · exfalso
        have hkk : k' = k := hsk
        rw [hkk, hr] at hnil
        simp at hnil
      · have : s ∈ la.filter fun s' => s'.key = k :=
          List.mem_filter.mpr ⟨hstbl, by simp [hsk]⟩
        rw [hr] at this
        have hsr : s = r := List.mem_singleton.mp this
        rw [← hsr]
        exact hsany
    · intro hany
      exact List.mem_map.mpr ⟨r, List.mem_filter.mpr ⟨hrmem, hany⟩, hrk⟩
  · constructor
    · intro hmem
      have := (List.mem_filter.mp hmem).2
      simpa using this
    · intro hfalse
      exact List.mem_filter.mpr ⟨hrmem, by simp [hfalse]⟩

/-- Witness for the amended C2 at the concrete partially-populated record. -/
theorem c2_amended_miss_classification_witness :
    (kC2 ∈ toAnnotate [kC2] [recC2] 2 ↔ rowAnyNull recC2 = true)
    ∧ (recC2 ∈ hitsRetained [kC2] [recC2] 2 ↔ rowAllNull recC2 = false) :=
  c2_amended_miss_classification [kC2] [recC2] 2 kC2 recC2 (by decide) (by decide)

/-- Claim C3: when the combined annotation table has pairwise-distinct keys,
every per-file output has exactly as many rows as its source table, and the
source column of the output is a permutation of the source rows — no source
row is dropped for lack of a matching annotation. -/
theorem c3_row_count_preserved (df : List SourceRow) (combined : List AnnRecord) (w : Nat)
    (hnd : (combined.map AnnRecord.key).Nodup) :
    (outputTable df combined w).length = df.length
    ∧ ((outputTable df combined w).map Prod.fst).Perm (df.map some) := by
  have hlen : (leftJoinKeys (build_variant_df df) combined w).length = df.length := by
    rw [leftJoinKeys_length_of_nodup hnd]
    simp [build_variant_df]
  have hfst : (concatAxis1 df (leftJoinKeys (build_variant_df df) combined w)).map Prod.fst
      = df.map some :=
    concatAxis1_map_fst_of_len _ _ hlen.symm
  have hsort := sortByAFDesc_perm (concatAxis1 df (leftJoinKeys (build_variant_df df) combined w))
  constructor
  · show (sortByAFDesc _).length = df.length
    rw [hsort.length_eq, concatAxis1_length, hlen]
    exact Nat.max_self _
  · show ((sortByAFDesc _).map Prod.fst).Perm (df.map some)
    refine (hsort.map Prod.fst).trans ?_
    rw [hfst]

/-- Witness for C3 at a concrete two-row file with one matching annotation. -/
theorem c3_row_count_preserved_witness :
    (outputTable dfW3 combW3 1).length = dfW3.length
    ∧ ((outputTable dfW3 combW3 1).map Prod.fst).Perm (dfW3.map some) :=
  c3_row_count_preserved dfW3 combW3 1 (by decide)

/-- Claim C4, evaluated at the failing input: with a cache holding a fully
annotated key and a batch adding a never-cached key, the new key is sent to
the service and persisted to the cache, yet the combined annotation table
used for the per-file joins does not contain it — the left merge of retained
hits with the fresh table drops fresh records for complete-miss keys. -/
theorem c4_fresh_records_dropped :
    toAnnotate (unique_vars filesC4) cacheC4 1 = [kC4b]
    ∧ kC4b ∈ (appendAndSave cacheC4 freshC4).map AnnRecord.key
    ∧ combinedAnnotations (hitsRetained (unique_vars filesC4) cacheC4 1) freshC4
        = [⟨kC4a, [some "BRCA2"], some "2024-01-02"⟩]
    ∧ kC4b ∉ (combinedAnnotations (hitsRetained (unique_vars filesC4) cacheC4 1) freshC4).map
        AnnRecord.key := by
  decide

/-- Claim C5 counterexample: a batch whose only key has a cached record that
is a hit in the spec's sense (not all attributes absent) still invokes the
annotation service, because the partial record leaves a null cell in the
merged row. -/
theorem c5_counterexample :
    serviceInvoked filesC5 cacheC5 2 = true
    ∧ ∀ k ∈ unique_vars filesC5, ∃ r ∈ cacheC5, r.key = k ∧ rowAllNull r = false := by
  decide

/-- Claim C5 as amended: the union of distinct keys is computed once across
all files of the batch (its members are exactly the keys of all rows of all
files), and when every union key has only fully-populated cached records the
annotation service is not invoked. -/
theorem c5_amended_union_once (files : List (List SourceRow)) (la : List AnnRecord) (w : Nat)
    (hne : la ≠ [])
    (hfull : ∀ k ∈ unique_vars files,
      (∃ r ∈ la, r.key = k) ∧ ∀ r ∈ la, r.key = k → rowAnyNull r = false) :
    serviceInvoked files la w = false
    ∧ ∀ k : VKey, k ∈ unique_vars files ↔ ∃ f ∈ files, ∃ row ∈ f, buildVariantKey row = k := by
  constructor
  · have hle : la.isEmpty = false := by
      cases la with
      | nil => exact absurd rfl hne
      | cons a l => rfl
    have hta : toAnnotate (unique_vars files) la w = [] := by
      have hfil : ((leftJoinKeys (unique_vars files) la w).filter rowAnyNull) = [] := by
        rw [List.filter_eq_nil_iff]
        intro s hs
        obtain ⟨k, hkmem, hjr⟩ := List.mem_flatMap.mp hs
        obtain ⟨⟨r0, hr0, hr0k⟩, hall⟩ := hfull k hkmem
        rcases mem_joinRows.mp hjr with ⟨hnil, rfl⟩ | ⟨hstbl, hskey⟩
        · exfalso
          have : r0 ∈ la.filter fun s' => s'.key = k :=
            List.mem_filter.mpr ⟨hr0, by simp [hr0k]⟩
          rw [hnil] at this
          simp at this
        · have := hall s hstbl hskey
          simp [this]
      show (toAnnotate (unique_vars files) la w) = []
      rw [toAnnotate, hfil]
      rfl
    rw [serviceInvoked, to_annotate_run, hle]
    simp [hta]
  · intro k
    rw [unique_vars, mem_dedupBy_id, List.mem_flatten]
    constructor
    · rintro ⟨l, hl, hkl⟩
      obtain ⟨f, hf, rfl⟩ := List.mem_map.mp hl
      obtain ⟨row, hrow, hrowk⟩ := List.mem_map.mp hkl
      exact ⟨f, hf, row, hrow, hrowk⟩
    · rintro ⟨f, hf, row, hrow, hkrow⟩
      exact ⟨build_variant_df f, List.mem_map_of_mem _ hf,
        List.mem_map.mpr ⟨row, hrow, hkrow⟩⟩

/-- Witness for the amended C5: a second run over one fully-annotated variant
invokes no service call and the union ranges over all files' rows. -/
theorem c5_amended_union_once_witness :
    serviceInvoked filesW5 cacheW5 2 = false
    ∧ ∀ k : VKey, k ∈ unique_vars filesW5 ↔ ∃ f ∈ filesW5, ∃ row ∈ f, buildVariantKey row = k :=
  c5_amended_union_once filesW5 cacheW5 2 (by decide) (by decide)

/-- Claim C7 counterexample: the normalizer removes every case-insensitive
occurrence of "chr", so on the chromosome cell "Xchr1" it produces "X1",
while removal of a leading build prefix (the claim's wording) would leave
"Xchr1" unchanged. -/
theorem c7_counterexample :
    (buildVariantKey rowC7).chr = "X1"
    ∧ stripChrLeading rowC7.chrom.toStr = "Xchr1"
    ∧ (buildVariantKey rowC7).chr ≠ stripChrLeading rowC7.chrom.toStr := by
  decide

/-- Claim C7 as amended: the normalizer removes all case-insensitive "chr"
occurrences left to right, so prepending any case variant of "chr" to the
chromosome never changes the normalized chromosome; and the inputs
("chr1", 12345, "A", "G") and ("1", "12345", "A", "G") produce the identical
key, all four fields string-typed. -/
theorem c7_amended_normalizer (c0 h0 r0 : Char) (s : String)
    (hc : c0.toLower = 'c') (hh : h0.toLower = 'h') (hrr : r0.toLower = 'r') :
    stripChr ⟨c0 :: h0 :: r0 :: s.data⟩ = stripChr s
    ∧ buildVariantKey ⟨Raw.str "chr1", Raw.int 12345, Raw.str "A", Raw.str "G", none, []⟩
        = buildVariantKey ⟨Raw.str "1", Raw.str "12345", Raw.str "A", Raw.str "G", none, []⟩ := by
  constructor
  · show String.mk (stripChrList (c0 :: h0 :: r0 :: s.data)) = String.mk (stripChrList s.data)
    have hstep : stripChrList (c0 :: h0 :: r0 :: s.data) = stripChrList s.data := by
      simp [stripChrList, hc, hh, hrr]
    rw [hstep]
  · decide

/-- Witness for the amended C7 at a mixed-case prefix. -/
theorem c7_amended_normalizer_witness :
    stripChr ⟨'C' :: 'h' :: 'R' :: String.data "1"⟩ = stripChr "1"
    ∧ buildVariantKey ⟨Raw.str "chr1", Raw.int 12345, Raw.str "A", Raw.str "G", none, []⟩
        = buildVariantKey ⟨Raw.str "1", Raw.str "12345", Raw.str "A", Raw.str "G", none, []⟩ :=
  c7_amended_normalizer 'C' 'h' 'R' "1" (by decide) (by decide) (by decide)

/-- Claim C8: the counter maps each identifier to the number of parsed files
containing it (intra-file duplicates collapse through the per-file set), the
rendered fraction divides that count by the number of files attempted, and on
the concrete three-file batch — variant in files 1 and 3, file 2 unparseable
— the count is 2 and the cell renders as "2/3". -/
theorem c8_occurrence_counts (files : List (Option ParsedVcf)) (v : String) :
    build_variant_counts files v
      = files.countP (fun f => match f with
          | none => false
          | some p => decide (v ∈ p.rows.map rowVariantId))
    ∧ renderCount (build_variant_counts files) files.length v
        = toString (files.countP (fun f => match f with
            | none => false
            | some p => decide (v ∈ p.rows.map rowVariantId))) ++ "/" ++ toString files.length
    ∧ build_variant_counts filesC8 vC8 = 2
    ∧ renderCount (build_variant_counts filesC8) filesC8.length vC8 = "2/3" := by
  have h1 : build_variant_counts files v
      = files.countP (fun f => match f with
          | none => false
          | some p => decide (v ∈ p.rows.map rowVariantId)) := by
    have h := counts_foldl_eq files v (fun _ => 0)
    simpa [build_variant_counts] using h
  refine ⟨h1, ?_, by decide, by decide⟩
  rw [renderCount, h1]

/-- Claim C9: loading a missing cache yields the empty table; loading an
existing one renormalizes all four key fields of every record through the
same normalizer as `_build_variant_df`, whatever their persisted dtype; at a
concrete record an integer position and a mixed-case "Chr" prefix come out as
canonical strings. -/
theorem c9_load_renormalizes :
    loadLocalAnnotations none = []
    ∧ (∀ recs : List PersistedRecord,
        loadLocalAnnotations (some recs)
          = recs.map fun rr =>
              ⟨buildVariantKey ⟨rr.chrom, rr.pos, rr.ref, rr.alt, none, []⟩,
                rr.attrs, rr.firstAnnotated⟩)
    ∧ loadLocalAnnotations (some [⟨Raw.str "Chr2", Raw.int 77, Raw.str "A", Raw.str "T", [none], none⟩])
        = [⟨⟨"2", "77", "A", "T"⟩, [none], none⟩] :=
  ⟨rfl, fun _ => rfl, by decide⟩

/-- Claim C10: every row of a successfully processed file has an occurrence
numerator of at least one, because the counting pass parses the same files
and counts each of the file's own identifiers once. -/
theorem c10_numerator_positive (files : List (Option ParsedVcf)) (p : ParsedVcf) (r : VcfRow)
    (hp : some p ∈ files) (_hinfo : p.hasInfo = true) (hr : r ∈ p.rows) :
    1 ≤ build_variant_counts files (rowVariantId r) :=
  one_le_counts_aux p r hr files (fun _ => 0) hp

/-- Witness for C10 at a concrete two-file batch. -/
theorem c10_numerator_positive_witness :
    1 ≤ build_variant_counts filesW10 (rowVariantId rowW10) :=
  c10_numerator_positive filesW10 pW10 rowW10 (by decide) (by decide) (by decide)

end BRCA
